import Mathlib

/-!
Shallow embedding of the pickup-queue backend (Go) and proofs about its
package status lifecycle.

Sources embedded here:
- `internal/domain/package.go` : the `Package` record and the four-value
  status enumeration (`WAITING`, `PICKED`, `HANDED_OVER`, `EXPIRED`).
- `internal/usecase` (`PackageUsecase`) : `CreatePackage`, `GetPackage`,
  `GetPackageByOrderRef`, `ListPackages`, `UpdatePackageStatus`,
  `DeletePackage`, `MarkExpiredPackages`, `isValidStatusTransition`.
- `internal/repository/package_repository.go` : the SQL-backed repository,
  modelled as operations on an in-memory table (`Store := List Package`),
  with the SQL semantics of each query spelled out.
- `internal/handler/package_handler.go` : the `ListPackages` handler and
  its limit/offset normalisation.

Modelling conventions: UUIDs are `Nat`, `time.Time` is `Int` (a linear
timestamp; `hour` is the unit chosen for `time.Hour`), Go `nil`-able
pointers/results are `Option`, and Go `(value, error)` pairs are
`Except StoreErr value`. The usecase is written against the repository
interface, so it is embedded parametrically over an abstract repository
state `sigma` and a `Repo sigma` record of operations, exactly mirroring
the dependency-injected `domain.PackageRepository`; the concrete
repository over an in-memory table is one instance (`memRepo`), and
failure-injecting instances are used to reason about store errors.
-/

/-- The four-value package status enumeration from `domain/package.go`
(`StatusWaiting`, `StatusPicked`, `StatusHandedOver`, `StatusExpired`).
Go represents it as a string type; every value that the handlers,
usecase and schema admit is one of these four constants. -/
inductive PackageStatus where
  | waiting
  | picked
  | handedOver
  | expired
deriving Repr, DecidableEq, Fintype

/-- The `Package` record from `domain/package.go`. `id` stands for the
UUID, times are `Int` timestamps, the three per-transition timestamps are
nullable (`Option`). -/
structure Package where
  id : Nat
  orderRef : String
  driverCode : String
  status : PackageStatus
  createdAt : Int
  updatedAt : Int
  pickedUpAt : Option Int
  handedOverAt : Option Int
  expiredAt : Option Int
deriving Repr, DecidableEq

/-- The `CreatePackageRequest` from `domain/package.go`. -/
structure CreatePackageRequest where
  orderRef : String
  driverCode : String
deriving Repr, DecidableEq

/-- `isValidStatusTransition` from the usecase: a Go `switch` on the
current status. WAITING may go to PICKED or EXPIRED, PICKED may go to
HANDED_OVER or EXPIRED, the two terminal states admit nothing. -/
def isValidStatusTransition (currentStatus newStatus : PackageStatus) : Bool :=
  match currentStatus with
  | .waiting => newStatus = PackageStatus.picked || newStatus = PackageStatus.expired
  | .picked => newStatus = PackageStatus.handedOver || newStatus = PackageStatus.expired
  | .handedOver => false
  | .expired => false

/-- A status is terminal when no transition leaves it (HANDED_OVER and
EXPIRED). -/
def isTerminalStatus (s : PackageStatus) : Bool :=
  s = PackageStatus.handedOver || s = PackageStatus.expired

/-- A Go repository error value (StoreError in the taxonomy of the error
model): the message carried by a failed persistence call. -/
abbrev StoreErr := String

/-- The error values of the usecase layer: `ErrPackageNotFound`,
`ErrDuplicateOrderRef`, `ErrInvalidStatusTransition`, and a propagated
repository error. -/
inductive UCError where
  | packageNotFound
  | duplicateOrderRef
  | invalidStatusTransition
  | store (e : StoreErr)
deriving Repr, DecidableEq

/-- The `domain.PackageRepository` interface: each operation takes the
abstract repository state and returns a Go `(result, error)` pair (as an
`Except`) together with the possibly changed state. `GetPackageStats` and
the unused `UpdateStatus` repository method are not consumed by any
claim and are omitted. -/
structure Repo (σ : Type) where
  create : σ → Package → Except StoreErr Unit × σ
  getByID : σ → Nat → Except StoreErr (Option Package) × σ
  getByOrderRef : σ → String → Except StoreErr (Option Package) × σ
  getAll : σ → Int → Int → Option PackageStatus → Except StoreErr (List Package) × σ
  update : σ → Package → Except StoreErr Unit × σ
  delete : σ → Nat → Except StoreErr Unit × σ
  getExpiredPackages : σ → Except StoreErr (List Package) × σ

/-- The fresh package `CreatePackage` builds: a new uuid, the request
fields, WAITING status, both clocks at `now`, all three nullable
timestamps null. -/
def mkNewPackage (req : CreatePackageRequest) (newId : Nat) (now : Int) : Package :=
  { id := newId, orderRef := req.orderRef, driverCode := req.driverCode,
    status := PackageStatus.waiting, createdAt := now, updatedAt := now,
    pickedUpAt := none, handedOverAt := none, expiredAt := none }

/-- `PackageUsecase.CreatePackage`: looks up the order reference with the
error DISCARDED (Go writes `existing, _ := ...GetByOrderRef(...)`, so a
failed lookup leaves `existing = nil`), rejects a present duplicate,
otherwise builds a fresh WAITING package (uuid and clock passed in as
`newId` and `now`) and persists it, propagating the insert error. Note
there is no validation of an empty `orderRef` anywhere in this function:
it proceeds straight to the duplicate lookup. -/
def CreatePackage {σ : Type} (r : Repo σ) (s : σ) (req : CreatePackageRequest)
    (newId : Nat) (now : Int) : Except UCError Package × σ :=
  let res := r.getByOrderRef s req.orderRef
  let existing : Option Package :=
    match res.1 with
    | .ok v => v
    | .error _ => none
  match existing with
  | some _ => (.error .duplicateOrderRef, res.2)
  | none =>
    let pkg := mkNewPackage req newId now
    match r.create res.2 pkg with
    | (.error e, s2) => (.error (.store e), s2)
    | (.ok _, s2) => (.ok pkg, s2)

/-- `PackageUsecase.GetPackage`: propagates a lookup error, maps an
absent record to `ErrPackageNotFound`. -/
def GetPackage {σ : Type} (r : Repo σ) (s : σ) (id : Nat) :
    Except UCError Package × σ :=
  match r.getByID s id with
  | (.error e, s1) => (.error (.store e), s1)
  | (.ok none, s1) => (.error .packageNotFound, s1)
  | (.ok (some pkg), s1) => (.ok pkg, s1)

/-- `PackageUsecase.GetPackageByOrderRef`: same shape as `GetPackage`. -/
def GetPackageByOrderRef {σ : Type} (r : Repo σ) (s : σ) (ref : String) :
    Except UCError Package × σ :=
  match r.getByOrderRef s ref with
  | (.error e, s1) => (.error (.store e), s1)
  | (.ok none, s1) => (.error .packageNotFound, s1)
  | (.ok (some pkg), s1) => (.ok pkg, s1)

/-- `PackageUsecase.ListPackages`: a direct delegation to the repository
`GetAll`. -/
def ListPackages {σ : Type} (r : Repo σ) (s : σ) (limit offset : Int)
    (status : Option PackageStatus) : Except UCError (List Package) × σ :=
  match r.getAll s limit offset status with
  | (.error e, s1) => (.error (.store e), s1)
  | (.ok pkgs, s1) => (.ok pkgs, s1)

/-- The record mutation performed by a permitted `UpdatePackageStatus`:
sets the new status, `updatedAt = now`, and stamps UNCONDITIONALLY the
one nullable timestamp matching the NEW status (the Go
`switch newStatus` assigns `&now` with no check that the field is still
nil). All other fields are kept. -/
def stampPackage (pkg : Package) (newStatus : PackageStatus) (now : Int) : Package :=
  let base := { pkg with status := newStatus, updatedAt := now }
  match newStatus with
  | .picked => { base with pickedUpAt := some now }
  | .handedOver => { base with handedOverAt := some now }
  | .expired => { base with expiredAt := some now }
  | .waiting => base

/-- `PackageUsecase.UpdatePackageStatus`: loads the record (propagating
errors, absent record is `ErrPackageNotFound`), rejects the change if
`isValidStatusTransition` does, otherwise applies `stampPackage` and
persists through `Update`, propagating the write error. -/
def UpdatePackageStatus {σ : Type} (r : Repo σ) (s : σ) (id : Nat)
    (newStatus : PackageStatus) (now : Int) : Except UCError Package × σ :=
  match r.getByID s id with
  | (.error e, s1) => (.error (.store e), s1)
  | (.ok none, s1) => (.error .packageNotFound, s1)
  | (.ok (some pkg), s1) =>
    if isValidStatusTransition pkg.status newStatus then
      let pkg2 := stampPackage pkg newStatus now
      match r.update s1 pkg2 with
      | (.error e, s2) => (.error (.store e), s2)
      | (.ok _, s2) => (.ok pkg2, s2)
    else (.error .invalidStatusTransition, s1)

/-- `PackageUsecase.DeletePackage`: loads the record first (propagating
errors, absent record is `ErrPackageNotFound`), then deletes,
propagating the delete error. -/
def DeletePackage {σ : Type} (r : Repo σ) (s : σ) (id : Nat) :
    Except UCError Unit × σ :=
  match r.getByID s id with
  | (.error e, s1) => (.error (.store e), s1)
  | (.ok none, s1) => (.error .packageNotFound, s1)
  | (.ok (some _), s1) =>
    match r.delete s1 id with
    | (.error e, s2) => (.error (.store e), s2)
    | (.ok _, s2) => (.ok (), s2)

/-- `PackageUsecase.MarkExpiredPackages`: fetches the stale records
(propagating that error), then calls `UpdatePackageStatus(id, EXPIRED)`
on EVERY returned record in order, ignoring each per-record result (the
Go loop does `continue` on error), and finally returns success. -/
def MarkExpiredPackages {σ : Type} (r : Repo σ) (s : σ) (now : Int) :
    Except UCError Unit × σ :=
  match r.getExpiredPackages s with
  | (.error e, s1) => (.error (.store e), s1)
  | (.ok expiredPackages, s1) =>
    (.ok (),
      expiredPackages.foldl
        (fun st pkg => (UpdatePackageStatus r st pkg.id PackageStatus.expired now).2) s1)

/-- The `packages` table of `package_repository.go`, as a list of rows. -/
abbrev Store := List Package

/-- One hour of the `Int` time scale (seconds). -/
def hour : Int := 3600

/-- `SELECT ... FROM packages WHERE id = $1` (no row yields Go `nil`). -/
def findByID (s : Store) (id : Nat) : Option Package :=
  s.find? (fun p => p.id = id)

/-- `SELECT ... FROM packages WHERE order_ref = $1`. -/
def findByOrderRef (s : Store) (ref : String) : Option Package :=
  s.find? (fun p => p.orderRef = ref)

/-- `WHERE status = $1` of `GetAll` when a filter is present. -/
def filterStatus (s : Store) (status : Option PackageStatus) : List Package :=
  match status with
  | none => s
  | some st => s.filter (fun p => p.status = st)

/-- `ORDER BY created_at DESC`: a stable sort putting the newest
`createdAt` first. -/
def sortByCreatedDesc (l : List Package) : List Package :=
  l.insertionSort (fun a b => b.createdAt ≤ a.createdAt)

/-- The staleness criterion of `GetExpiredPackages`, as a predicate on
one row: status WAITING or PICKED and `created_at` before the cutoff
`now - 24h` (the Go `time.Now().Add(-24 * time.Hour)`). -/
def staleB (now : Int) (p : Package) : Bool :=
  (p.status = PackageStatus.waiting || p.status = PackageStatus.picked) &&
    p.createdAt < now - 24 * hour

/-- `GetExpiredPackages`: the rows satisfying the staleness criterion
(`WHERE status IN (WAITING, PICKED) AND created_at < cutoff`). -/
def getExpiredStore (s : Store) (now : Int) : List Package :=
  s.filter (staleB now)

/-- The SQL-backed `PackageRepository` of `package_repository.go` over
the in-memory table, evaluated at clock value `now` (used only by the
`GetExpiredPackages` cutoff). `create` is `INSERT` and surfaces the
primary-key/unique-constraint violation of the schema; `update` is
`UPDATE ... WHERE id = $1`, rewriting every column of the matching row
and succeeding even when no row matches (Go ignores the affected-row
count); `delete` is `DELETE ... WHERE id = $1`, likewise total; `getAll`
is `ORDER BY created_at DESC LIMIT $ OFFSET $`, failing on a negative
`LIMIT`/`OFFSET` as the database would. -/
def memRepo (now : Int) : Repo Store where
  create s pkg :=
    if s.any (fun p => p.id = pkg.id || p.orderRef = pkg.orderRef)
    then (.error "duplicate key", s)
    else (.ok (), s ++ [pkg])
  getByID s id := (.ok (findByID s id), s)
  getByOrderRef s ref := (.ok (findByOrderRef s ref), s)
  getAll s limit offset status :=
    if limit < 0 || offset < 0 then (.error "negative limit or offset", s)
    else (.ok (((sortByCreatedDesc (filterStatus s status)).drop offset.toNat).take limit.toNat), s)
  update s pkg := (.ok (), s.map (fun p => if p.id = pkg.id then pkg else p))
  delete s id := (.ok (), s.filter (fun p => p.id ≠ id))
  getExpiredPackages s := (.ok (getExpiredStore s now), s)

/-- `CreatePackage` wired to the concrete repository. -/
def ucCreatePackage (s : Store) (req : CreatePackageRequest) (newId : Nat) (now : Int) :
    Except UCError Package × Store :=
  CreatePackage (memRepo now) s req newId now

/-- `UpdatePackageStatus` wired to the concrete repository. -/
def ucUpdatePackageStatus (s : Store) (id : Nat) (newStatus : PackageStatus) (now : Int) :
    Except UCError Package × Store :=
  UpdatePackageStatus (memRepo now) s id newStatus now

/-- `DeletePackage` wired to the concrete repository (the clock is
irrelevant to lookup and delete). -/
def ucDeletePackage (s : Store) (id : Nat) : Except UCError Unit × Store :=
  DeletePackage (memRepo 0) s id

/-- `MarkExpiredPackages` wired to the concrete repository, the whole
sweep evaluated at clock value `now`. -/
def ucMarkExpiredPackages (s : Store) (now : Int) : Except UCError Unit × Store :=
  MarkExpiredPackages (memRepo now) s now

/-- `strconv.Atoi` plus the limit normalisation of the `ListPackages`
handler: a missing or unparseable query value (`none`) and any
non-positive value fall back to 50, values above 100 become 100. -/
def effectiveLimit (limitArg : Option Int) : Int :=
  let l : Int :=
    match limitArg with
    | none => 50
    | some v => if v ≤ 0 then 50 else v
  if l > 100 then 100 else l

/-- The offset normalisation of the `ListPackages` handler: missing,
unparseable or negative offsets become 0. -/
def effectiveOffset (offsetArg : Option Int) : Int :=
  match offsetArg with
  | none => 0
  | some v => if v < 0 then 0 else v

/-- The `PackageListResponse` payload of the handler. -/
structure PackageListResponse where
  data : List Package
  limit : Int
  offset : Int
  count : Nat
deriving Repr, DecidableEq

/-- The `ListPackages` HTTP handler over the concrete store: normalises
limit and offset, passes the already validated optional status filter,
delegates to the usecase and wraps the result. -/
def handlerListPackages (s : Store) (limitArg offsetArg : Option Int)
    (statusArg : Option PackageStatus) : Except UCError PackageListResponse :=
  let limit := effectiveLimit limitArg
  let offset := effectiveOffset offsetArg
  match ListPackages (memRepo 0) s limit offset statusArg with
  | (.error e, _) => .error e
  | (.ok pkgs, _) => .ok { data := pkgs, limit := limit, offset := offset, count := pkgs.length }

/-- A service operation against the store, with the nondeterministic
inputs (fresh uuid, clock reading) made explicit. -/
inductive Op where
  | create (req : CreatePackageRequest) (newId : Nat) (now : Int)
  | updateStatus (id : Nat) (newStatus : PackageStatus) (now : Int)
  | delete (id : Nat)
  | sweep (now : Int)

/-- The store after one service operation. -/
def applyOp (s : Store) (op : Op) : Store :=
  match op with
  | .create req newId now => (ucCreatePackage s req newId now).2
  | .updateStatus id st now => (ucUpdatePackageStatus s id st now).2
  | .delete id => (ucDeletePackage s id).2
  | .sweep now => (ucMarkExpiredPackages s now).2

/-- The store reached from the empty store by a sequence of service
operations. -/
def runOps (ops : List Op) : Store :=
  ops.foldl applyOp []

/-- Reflexive-transitive closure of the §4.2 transition graph: status b
is reachable from status a by zero or more permitted transitions. -/
def statusReach (a b : PackageStatus) : Bool :=
  a = b || isValidStatusTransition a b ||
    (a = PackageStatus.waiting && b = PackageStatus.handedOver)

/-- A repository instrumentation recording which repository methods a
usecase call invokes: the state is the list of invoked method names,
every lookup finds nothing, every scan is empty and every write
succeeds. -/
def logRepo : Repo (List String) where
  create s _ := (.ok (), s ++ ["Create"])
  getByID s _ := (.ok none, s ++ ["GetByID"])
  getByOrderRef s _ := (.ok none, s ++ ["GetByOrderRef"])
  getAll s _ _ _ := (.ok [], s ++ ["GetAll"])
  update s _ := (.ok (), s ++ ["Update"])
  delete s _ := (.ok (), s ++ ["Delete"])
  getExpiredPackages s := (.ok [], s ++ ["GetExpiredPackages"])

/-- A repository instrumentation for the sweep: the state logs, in
order, the id of every record on which a per-record EXPIRED update is
attempted (each `UpdatePackageStatus` call opens with `GetByID`).
`lookup` is what a load returns, `failLoad` and `failWrite` inject
per-record load and write failures, and the stale scan returns `stale`
unconditionally. -/
def sweepTraceRepo (stale : List Package) (lookup : Nat → Option Package)
    (failLoad failWrite : Nat → Bool) : Repo (List Nat) where
  create s _ := (.ok (), s)
  getByID s id := ((if failLoad id then .error "load failed" else .ok (lookup id)), s ++ [id])
  getByOrderRef s _ := (.ok none, s)
  getAll s _ _ _ := (.ok [], s)
  update s pkg := ((if failWrite pkg.id then .error "write failed" else .ok ()), s)
  delete s _ := (.ok (), s)
  getExpiredPackages s := (.ok stale, s)

/-- A repository whose duplicate-reference lookup is down (connectivity
loss) while everything else works; the state is irrelevant. -/
def lookupDownRepo : Repo Unit where
  create s _ := (.ok (), s)
  getByID s _ := (.ok none, s)
  getByOrderRef s _ := (.error "connection lost", s)
  getAll s _ _ _ := (.ok [], s)
  update s _ := (.ok (), s)
  delete s _ := (.ok (), s)
  getExpiredPackages s := (.ok [], s)

/-- A repository whose stale scan succeeds with two WAITING records
while every write fails: the worst case of a sweep in which every
per-record update errors out. -/
def sweepAllWritesFailRepo : Repo Unit where
  create s _ := (.error "down", s)
  getByID s id :=
    (.ok (some (mkNewPackage { orderRef := toString id, driverCode := "DRV" } id (-30 * hour))), s)
  getByOrderRef s _ := (.ok none, s)
  getAll s _ _ _ := (.ok [], s)
  update s _ := (.error "write failed", s)
  delete s _ := (.error "down", s)
  getExpiredPackages s :=
    (.ok [mkNewPackage { orderRef := "1", driverCode := "DRV" } 1 (-30 * hour),
          mkNewPackage { orderRef := "2", driverCode := "DRV" } 2 (-25 * hour)], s)

/-- A repository every operation of which fails with the same
connectivity error. -/
def downRepo : Repo Unit where
  create s _ := (.error "down", s)
  getByID s _ := (.error "down", s)
  getByOrderRef s _ := (.error "down", s)
  getAll s _ _ _ := (.error "down", s)
  update s _ := (.error "down", s)
  delete s _ := (.error "down", s)
  getExpiredPackages s := (.error "down", s)

/-- A simple concrete row used by concrete instantiations: id `i`, order
reference and driver code derived from `i`, status `st`, both clocks at
`c`, no nullable timestamp set. -/
def samplePkg (i : Nat) (st : PackageStatus) (c : Int) : Package :=
  { id := i, orderRef := "ORD-" ++ toString i, driverCode := "DRV-" ++ toString i,
    status := st, createdAt := c, updatedAt := c,
    pickedUpAt := none, handedOverAt := none, expiredAt := none }

/-- Modelled from the spec: clamping a value into the closed interval
between `lo` and `hi`, the reading of the phrase `limit clamped to
[1,100]` in the list contract; compared against the program term
`effectiveLimit`. -/
def clampSpec (lo hi x : Int) : Int := max lo (min hi x)



/-- The uuids drawn by the create operations of a trace, in order. The
real service draws them from `uuid.New()`, so a trace of the running
system never repeats one; that freshness is the `Nodup` hypothesis of
the monotonicity theorem. -/
def createIds : List Op → List Nat
  | [] => []
  | Op.create _ newId _ :: ops => newId :: createIds ops
  | Op.updateStatus _ _ _ :: ops => createIds ops
  | Op.delete _ :: ops => createIds ops
  | Op.sweep _ :: ops => createIds ops

/-- Well-formedness of the table: the primary key is a key, so row ids
are pairwise distinct (every store the service builds satisfies it). -/
def WF (s : Store) : Prop :=
  s.Pairwise (fun p q => p.id ≠ q.id)

/-! Theorems. -/

/-- C1: the transition rule permits exactly the four pairs
WAITING→PICKED, WAITING→EXPIRED, PICKED→HANDED_OVER, PICKED→EXPIRED;
consequently every self-transition and every transition out of a
terminal state is rejected. -/
theorem isValidStatusTransition_characterisation :
    (∀ c n : PackageStatus,
      isValidStatusTransition c n = true ↔
        ((c = PackageStatus.waiting ∧ n = PackageStatus.picked) ∨
         (c = PackageStatus.waiting ∧ n = PackageStatus.expired) ∨
         (c = PackageStatus.picked ∧ n = PackageStatus.handedOver) ∨
         (c = PackageStatus.picked ∧ n = PackageStatus.expired))) ∧
    (∀ c : PackageStatus, isValidStatusTransition c c = false) ∧
    (∀ n : PackageStatus,
      isValidStatusTransition PackageStatus.handedOver n = false ∧
      isValidStatusTransition PackageStatus.expired n = false) := by
  refine ⟨?_, ?_, ?_⟩ <;> decide

/-- C5: `CreatePackage` does NOT reject an empty order reference: it
invokes the duplicate-reference lookup and then the insert (first
component, against the instrumented repository, whose final state lists
the invoked methods) and returns success with a WAITING package whose
order reference is empty (second component, against the concrete
store). The usecase layer has no validation error value at all. This
contradicts the claim and the unit test
`TestPackageUsecase_CreatePackage_EdgeCase_EmptyOrderRef`, which demands
an `order reference is required` failure with no repository call. -/
theorem createPackage_emptyOrderRef_not_validated :
    CreatePackage logRepo [] { orderRef := "", driverCode := "DRV-001" } 1 0 =
      (.ok (mkNewPackage { orderRef := "", driverCode := "DRV-001" } 1 0),
       ["GetByOrderRef", "Create"]) ∧
    ucCreatePackage [] { orderRef := "", driverCode := "DRV-001" } 1 0 =
      (.ok (mkNewPackage { orderRef := "", driverCode := "DRV-001" } 1 0),
       [mkNewPackage { orderRef := "", driverCode := "DRV-001" } 1 0]) := by
  constructor <;> rfl

/-- C10: whenever the stale scan succeeds, `MarkExpiredPackages`
returns success; the per-record update results are dropped inside the
fold, so no partial failure reaches the caller. -/
theorem markExpiredPackages_ok_of_scan_ok {σ : Type} (r : Repo σ) (s : σ) (now : Int)
    (pkgs : List Package) (s1 : σ)
    (h : r.getExpiredPackages s = (.ok pkgs, s1)) :
    (MarkExpiredPackages r s now).1 = .ok () := by
  simp [MarkExpiredPackages, h]

/-- C10 witness: with a stale scan returning two records and every
write failing, the sweep still reports success. -/
theorem markExpiredPackages_ok_of_scan_ok_witness :
    (MarkExpiredPackages sweepAllWritesFailRepo () 0).1 = .ok () :=
  markExpiredPackages_ok_of_scan_ok sweepAllWritesFailRepo () 0 _ () rfl

/-- C7: the sweep attempts every stale record: whatever per-record load
and write failures are injected, the trace of attempted records is the
whole stale list in order, and the sweep still finishes normally; in
particular a failure on one record never prevents the attempt on any
later record. -/
theorem sweep_attempts_every_stale_record
    (stale : List Package) (lookup : Nat → Option Package)
    (failLoad failWrite : Nat → Bool) (now : Int) :
    MarkExpiredPackages (sweepTraceRepo stale lookup failLoad failWrite) [] now =
      (.ok (), stale.map (fun p => p.id)) := by
  have hstep : ∀ (st : List Nat) (pkg : Package),
      (UpdatePackageStatus (sweepTraceRepo stale lookup failLoad failWrite)
        st pkg.id PackageStatus.expired now).2 = st ++ [pkg.id] := by
    intro st pkg
    cases hfl : failLoad pkg.id with
    | true => simp [UpdatePackageStatus, sweepTraceRepo, hfl]
    | false =>
      cases hlk : lookup pkg.id with
      | none => simp [UpdatePackageStatus, sweepTraceRepo, hfl, hlk]
      | some q =>
        cases hv : isValidStatusTransition q.status PackageStatus.expired with
        | false => simp [UpdatePackageStatus, sweepTraceRepo, hfl, hlk, hv]
        | true =>
          cases hfw : failWrite (stampPackage q PackageStatus.expired now).id <;>
            simp [UpdatePackageStatus, sweepTraceRepo, hfl, hlk, hv, hfw]
  have hfold : ∀ (l : List Package) (acc : List Nat),
      l.foldl (fun st pkg =>
        (UpdatePackageStatus (sweepTraceRepo stale lookup failLoad failWrite)
          st pkg.id PackageStatus.expired now).2) acc
        = acc ++ l.map (fun p => p.id) := by
    intro l
    induction l with
    | nil => intro acc; simp
    | cons pkg rest ih =>
      intro acc
      simp only [List.foldl_cons, List.map_cons]
      rw [hstep, ih, List.append_assoc]
      rfl
  have hscan : (sweepTraceRepo stale lookup failLoad failWrite).getExpiredPackages [] =
      (.ok stale, []) := rfl
  simp only [MarkExpiredPackages, hscan]
  rw [hfold]
  rfl

/-- C9 counterexample: against a repository whose duplicate-reference
lookup fails while the insert works, `CreatePackage` succeeds: the
lookup failure is discarded (Go `existing, _ := ...`), treated as no
duplicate found, and the insert proceeds — the operation does not
return a failure to the caller although an underlying store call
failed. -/
theorem createPackage_swallows_lookup_error :
    (lookupDownRepo.getByOrderRef () "ORD-1").1 = .error "connection lost" ∧
    CreatePackage lookupDownRepo () { orderRef := "ORD-1", driverCode := "DRV-1" } 1 0 =
      (.ok (mkNewPackage { orderRef := "ORD-1", driverCode := "DRV-1" } 1 0), ()) := by
  constructor <;> rfl

/-- C9 amended: every underlying store failure on a read, update-status,
delete, or on the insert of create, is propagated to the caller as a
failure; the ONE exception outside the sweep is the duplicate-reference
lookup inside create, whose failure is discarded and treated as no
duplicate found, after which create proceeds to the insert. -/
theorem store_errors_propagated_except_create_lookup :
    (∀ (σ : Type) (r : Repo σ) (s : σ) (id : Nat) (e : StoreErr) (s1 : σ),
      r.getByID s id = (.error e, s1) →
      GetPackage r s id = (.error (.store e), s1)) ∧
    (∀ (σ : Type) (r : Repo σ) (s : σ) (ref : String) (e : StoreErr) (s1 : σ),
      r.getByOrderRef s ref = (.error e, s1) →
      GetPackageByOrderRef r s ref = (.error (.store e), s1)) ∧
    (∀ (σ : Type) (r : Repo σ) (s : σ) (limit offset : Int)
        (st : Option PackageStatus) (e : StoreErr) (s1 : σ),
      r.getAll s limit offset st = (.error e, s1) →
      ListPackages r s limit offset st = (.error (.store e), s1)) ∧
    (∀ (σ : Type) (r : Repo σ) (s : σ) (id : Nat) (ns : PackageStatus) (now : Int)
        (e : StoreErr) (s1 : σ),
      r.getByID s id = (.error e, s1) →
      UpdatePackageStatus r s id ns now = (.error (.store e), s1)) ∧
    (∀ (σ : Type) (r : Repo σ) (s : σ) (id : Nat) (ns : PackageStatus) (now : Int)
        (pkg : Package) (e : StoreErr) (s1 s2 : σ),
      r.getByID s id = (.ok (some pkg), s1) →
      isValidStatusTransition pkg.status ns = true →
      r.update s1 (stampPackage pkg ns now) = (.error e, s2) →
      UpdatePackageStatus r s id ns now = (.error (.store e), s2)) ∧
    (∀ (σ : Type) (r : Repo σ) (s : σ) (id : Nat) (e : StoreErr) (s1 : σ),
      r.getByID s id = (.error e, s1) →
      DeletePackage r s id = (.error (.store e), s1)) ∧
    (∀ (σ : Type) (r : Repo σ) (s : σ) (id : Nat) (pkg : Package) (e : StoreErr) (s1 s2 : σ),
      r.getByID s id = (.ok (some pkg), s1) →
      r.delete s1 id = (.error e, s2) →
      DeletePackage r s id = (.error (.store e), s2)) ∧
    (∀ (σ : Type) (r : Repo σ) (s : σ) (req : CreatePackageRequest) (newId : Nat)
        (now : Int) (e : StoreErr) (s1 s2 : σ),
      r.getByOrderRef s req.orderRef = (.ok none, s1) →
      r.create s1 (mkNewPackage req newId now) = (.error e, s2) →
      CreatePackage r s req newId now = (.error (.store e), s2)) ∧
    (∀ (σ : Type) (r : Repo σ) (s : σ) (req : CreatePackageRequest) (newId : Nat)
        (now : Int) (e : StoreErr) (s1 : σ),
      r.getByOrderRef s req.orderRef = (.error e, s1) →
      CreatePackage r s req newId now =
        (match r.create s1 (mkNewPackage req newId now) with
         | (.error e2, s2) => (.error (.store e2), s2)
         | (.ok _, s2) => (.ok (mkNewPackage req newId now), s2))) := by
  refine ⟨?_, ?_, ?_, ?_, ?_, ?_, ?_, ?_, ?_⟩
  · intro σ r s id e s1 h; simp [GetPackage, h]
  · intro σ r s ref e s1 h; simp [GetPackageByOrderRef, h]
  · intro σ r s limit offset st e s1 h; simp [ListPackages, h]
  · intro σ r s id ns now e s1 h; simp [UpdatePackageStatus, h]
  · intro σ r s id ns now pkg e s1 s2 h hv hu
    simp [UpdatePackageStatus, h, hv, hu]
  · intro σ r s id e s1 h; simp [DeletePackage, h]
  · intro σ r s id pkg e s1 s2 h hd; simp [DeletePackage, h, hd]
  · intro σ r s req newId now e s1 s2 h hc; simp [CreatePackage, h, hc]
  · intro σ r s req newId now e s1 h; simp [CreatePackage, h]

/-- C9 witness: each propagation case instantiated at a concrete failing
repository, plus the create-lookup exemption at the lookup-down
repository. -/
theorem store_errors_propagated_except_create_lookup_witness :
    GetPackage downRepo () 1 = (.error (.store "down"), ()) ∧
    GetPackageByOrderRef downRepo () "ORD-1" = (.error (.store "down"), ()) ∧
    ListPackages downRepo () 50 0 none = (.error (.store "down"), ()) ∧
    UpdatePackageStatus downRepo () 1 PackageStatus.picked 0 = (.error (.store "down"), ()) ∧
    UpdatePackageStatus sweepAllWritesFailRepo () 5 PackageStatus.picked 3 =
      (.error (.store "write failed"), ()) ∧
    DeletePackage downRepo () 1 = (.error (.store "down"), ()) ∧
    DeletePackage sweepAllWritesFailRepo () 5 = (.error (.store "down"), ()) ∧
    CreatePackage sweepAllWritesFailRepo () { orderRef := "ORD-9", driverCode := "DRV-9" } 9 0 =
      (.error (.store "down"), ()) ∧
    CreatePackage lookupDownRepo () { orderRef := "ORD-1", driverCode := "DRV-1" } 1 0 =
      (.ok (mkNewPackage { orderRef := "ORD-1", driverCode := "DRV-1" } 1 0), ()) := by
  obtain ⟨h1, h2, h3, h4, h5, h6, h7, h8, h9⟩ := store_errors_propagated_except_create_lookup
  refine ⟨h1 Unit downRepo () 1 "down" () rfl,
    h2 Unit downRepo () "ORD-1" "down" () rfl,
    h3 Unit downRepo () 50 0 none "down" () rfl,
    h4 Unit downRepo () 1 PackageStatus.picked 0 "down" () rfl,
    h5 Unit sweepAllWritesFailRepo () 5 PackageStatus.picked 3 _ "write failed" () () rfl (by decide) rfl,
    h6 Unit downRepo () 1 "down" () rfl,
    h7 Unit sweepAllWritesFailRepo () 5 _ "down" () () rfl rfl,
    h8 Unit sweepAllWritesFailRepo () { orderRef := "ORD-9", driverCode := "DRV-9" } 9 0 "down" () () rfl rfl,
    (h9 Unit lookupDownRepo () { orderRef := "ORD-1", driverCode := "DRV-1" } 1 0 "connection lost" () rfl).trans rfl⟩

/-- C3: when the requested transition is not permitted, the status
update fails with the invalid-transition error and returns the store
exactly as it was: the record is unmodified and no write is issued. -/
theorem updateStatus_invalid_leaves_store_unchanged
    (s : Store) (id : Nat) (next : PackageStatus) (now : Int) (pkg : Package)
    (hfind : findByID s id = some pkg)
    (hinv : isValidStatusTransition pkg.status next = false) :
    ucUpdatePackageStatus s id next now = (.error .invalidStatusTransition, s) := by
  simp [ucUpdatePackageStatus, UpdatePackageStatus, memRepo, hfind, hinv]

/-- C3 witness: a terminal (EXPIRED) record rejects a PICKED update and
the one-record store is returned untouched. -/
theorem updateStatus_invalid_leaves_store_unchanged_witness :
    ucUpdatePackageStatus [samplePkg 1 PackageStatus.expired 0] 1 PackageStatus.picked 5 =
      (.error .invalidStatusTransition, [samplePkg 1 PackageStatus.expired 0]) :=
  updateStatus_invalid_leaves_store_unchanged [samplePkg 1 PackageStatus.expired 0] 1
    PackageStatus.picked 5 (samplePkg 1 PackageStatus.expired 0) (by decide) (by decide)

/-- Helper: stamping never changes the id. -/
@[simp]
theorem stampPackage_id (pkg : Package) (st : PackageStatus) (now : Int) :
    (stampPackage pkg st now).id = pkg.id := by
  cases st <;> rfl

/-- Helper: stamping sets the status to the new status. -/
@[simp]
theorem stampPackage_status (pkg : Package) (st : PackageStatus) (now : Int) :
    (stampPackage pkg st now).status = st := by
  cases st <;> rfl

/-- Helper: stamping never changes the order reference. -/
@[simp]
theorem stampPackage_orderRef (pkg : Package) (st : PackageStatus) (now : Int) :
    (stampPackage pkg st now).orderRef = pkg.orderRef := by
  cases st <;> rfl

/-- Helper: stamping never changes the driver code. -/
@[simp]
theorem stampPackage_driverCode (pkg : Package) (st : PackageStatus) (now : Int) :
    (stampPackage pkg st now).driverCode = pkg.driverCode := by
  cases st <;> rfl

/-- Helper: stamping never changes the creation time. -/
@[simp]
theorem stampPackage_createdAt (pkg : Package) (st : PackageStatus) (now : Int) :
    (stampPackage pkg st now).createdAt = pkg.createdAt := by
  cases st <;> rfl

/-- Helper: stamping sets the update time to now. -/
@[simp]
theorem stampPackage_updatedAt (pkg : Package) (st : PackageStatus) (now : Int) :
    (stampPackage pkg st now).updatedAt = now := by
  cases st <;> rfl

/-- C2 counterexample: a stored WAITING package whose `picked_up_at` is
ALREADY set (to 5) is, on a permitted WAITING→PICKED update at time 10,
returned with `picked_up_at = 10`: the code overwrites the timestamp
rather than stamping it only if not already set, so the record the
claim predicts (with `picked_up_at` still 5) is not the one returned. -/
theorem updateStatus_overwrites_already_set_timestamp :
    (ucUpdatePackageStatus
        [{ samplePkg 1 PackageStatus.waiting 0 with pickedUpAt := some 5 }]
        1 PackageStatus.picked 10).1 =
      .ok { samplePkg 1 PackageStatus.waiting 0 with
              status := PackageStatus.picked, updatedAt := 10, pickedUpAt := some 10 } ∧
    ({ samplePkg 1 PackageStatus.waiting 0 with
        status := PackageStatus.picked, updatedAt := 10, pickedUpAt := some 10 } : Package) ≠
      { samplePkg 1 PackageStatus.waiting 0 with
          status := PackageStatus.picked, updatedAt := 10, pickedUpAt := some 5 } := by
  exact ⟨rfl, by decide⟩

/-- C2 amended: for a stored package and a permitted next status, the
status update succeeds, persists, and returns the record with the new
status, `updatedAt = now`, the single nullable timestamp corresponding
to the new status set to `now` UNCONDITIONALLY (overwriting any value
already there), while id, order reference, driver code, creation time
and the two non-corresponding nullable timestamps are unchanged. -/
theorem updateStatus_valid_stamps_unconditionally
    (s : Store) (pkg : Package) (next : PackageStatus) (now : Int)
    (hfind : findByID s pkg.id = some pkg)
    (hval : isValidStatusTransition pkg.status next = true) :
    ucUpdatePackageStatus s pkg.id next now =
      (.ok (stampPackage pkg next now),
        s.map (fun p => if p.id = pkg.id then stampPackage pkg next now else p)) ∧
    (stampPackage pkg next now).status = next ∧
    (stampPackage pkg next now).updatedAt = now ∧
    (stampPackage pkg next now).id = pkg.id ∧
    (stampPackage pkg next now).orderRef = pkg.orderRef ∧
    (stampPackage pkg next now).driverCode = pkg.driverCode ∧
    (stampPackage pkg next now).createdAt = pkg.createdAt ∧
    (next = PackageStatus.picked →
      (stampPackage pkg next now).pickedUpAt = some now ∧
      (stampPackage pkg next now).handedOverAt = pkg.handedOverAt ∧
      (stampPackage pkg next now).expiredAt = pkg.expiredAt) ∧
    (next = PackageStatus.handedOver →
      (stampPackage pkg next now).handedOverAt = some now ∧
      (stampPackage pkg next now).pickedUpAt = pkg.pickedUpAt ∧
      (stampPackage pkg next now).expiredAt = pkg.expiredAt) ∧
    (next = PackageStatus.expired →
      (stampPackage pkg next now).expiredAt = some now ∧
      (stampPackage pkg next now).pickedUpAt = pkg.pickedUpAt ∧
      (stampPackage pkg next now).handedOverAt = pkg.handedOverAt) := by
  refine ⟨?_, by simp, by simp, by simp, by simp, by simp, by simp, ?_, ?_, ?_⟩
  · simp [ucUpdatePackageStatus, UpdatePackageStatus, memRepo, hfind, hval]
  · intro h; subst h; exact ⟨rfl, rfl, rfl⟩
  · intro h; subst h; exact ⟨rfl, rfl, rfl⟩
  · intro h; subst h; exact ⟨rfl, rfl, rfl⟩

/-- C2 witness: a WAITING record picked up at time 5 in a one-record
store. -/
theorem updateStatus_valid_stamps_unconditionally_witness :
    ucUpdatePackageStatus [samplePkg 1 PackageStatus.waiting 0] 1 PackageStatus.picked 5 =
      (.ok (stampPackage (samplePkg 1 PackageStatus.waiting 0) PackageStatus.picked 5),
        [stampPackage (samplePkg 1 PackageStatus.waiting 0) PackageStatus.picked 5]) := by
  have h := (updateStatus_valid_stamps_unconditionally
    [samplePkg 1 PackageStatus.waiting 0] (samplePkg 1 PackageStatus.waiting 0)
    PackageStatus.picked 5 (by decide) (by decide)).1
  simpa using h

/-- Helper: the normalised limit always lies in the interval from 1 to
100. -/
theorem effectiveLimit_bounds (la : Option Int) :
    1 ≤ effectiveLimit la ∧ effectiveLimit la ≤ 100 := by
  cases la with
  | none => exact ⟨by norm_num [effectiveLimit], by norm_num [effectiveLimit]⟩
  | some v => simp only [effectiveLimit]; split_ifs <;> omega

/-- Helper: the normalised offset is never negative. -/
theorem effectiveOffset_nonneg (oa : Option Int) : 0 ≤ effectiveOffset oa := by
  cases oa with
  | none => norm_num [effectiveOffset]
  | some v => simp only [effectiveOffset]; split_ifs <;> omega

/-- Helper: the ORDER BY created_at DESC model really sorts newest
first. -/
theorem sortByCreatedDesc_pairwise (l : List Package) :
    List.Pairwise (fun a b => b.createdAt ≤ a.createdAt) (sortByCreatedDesc l) := by
  haveI : IsTotal Package (fun a b => b.createdAt ≤ a.createdAt) :=
    ⟨fun a b => le_total b.createdAt a.createdAt⟩
  haveI : IsTrans Package (fun a b => b.createdAt ≤ a.createdAt) :=
    ⟨fun a b c hab hbc => le_trans hbc hab⟩
  exact List.sorted_insertionSort _ l

/-- C8 counterexample: a requested limit of 0 is replaced by the default
50, not clamped into the interval (which would give 1): the handler
answers with limit 50 where the clamping reading of the claim predicts
1. -/
theorem listPackages_limit_zero_not_clamped_to_one :
    handlerListPackages [] (some 0) none none =
      .ok { data := [], limit := 50, offset := 0, count := 0 } ∧
    clampSpec 1 100 0 = 1 ∧ ((50 : Int) ≠ 1) := by
  exact ⟨rfl, rfl, by decide⟩

/-- C8 amended: the list operation always succeeds and returns the
status-filtered records ordered newest-created_at-first, windowed by
offset then limit; the effective limit always lies in the interval from
1 to 100, where a missing, unparseable or non-positive limit becomes
the default 50 and a limit above 100 becomes 100; the effective offset
is never negative, where a missing, unparseable or negative offset
becomes the default 0. -/
theorem listPackages_normalised
    (s : Store) (la oa : Option Int) (sa : Option PackageStatus) :
    handlerListPackages s la oa sa =
      .ok { data := ((sortByCreatedDesc (filterStatus s sa)).drop
                      (effectiveOffset oa).toNat).take (effectiveLimit la).toNat,
            limit := effectiveLimit la, offset := effectiveOffset oa,
            count := (((sortByCreatedDesc (filterStatus s sa)).drop
                      (effectiveOffset oa).toNat).take (effectiveLimit la).toNat).length } ∧
    (1 ≤ effectiveLimit la ∧ effectiveLimit la ≤ 100) ∧
    0 ≤ effectiveOffset oa ∧
    (la = none → effectiveLimit la = 50) ∧
    (∀ v, la = some v → v ≤ 0 → effectiveLimit la = 50) ∧
    (∀ v, la = some v → 100 < v → effectiveLimit la = 100) ∧
    (∀ v, la = some v → 1 ≤ v → v ≤ 100 → effectiveLimit la = v) ∧
    (oa = none → effectiveOffset oa = 0) ∧
    (∀ v, oa = some v → v < 0 → effectiveOffset oa = 0) ∧
    (∀ v, oa = some v → 0 ≤ v → effectiveOffset oa = v) ∧
    List.Pairwise (fun a b => b.createdAt ≤ a.createdAt)
      (((sortByCreatedDesc (filterStatus s sa)).drop
        (effectiveOffset oa).toNat).take (effectiveLimit la).toNat) := by
  have hlb := effectiveLimit_bounds la
  have hob := effectiveOffset_nonneg oa
  refine ⟨?_, hlb, hob, ?_, ?_, ?_, ?_, ?_, ?_, ?_, ?_⟩
  · have hcond : ¬(effectiveLimit la < 0 ∨ effectiveOffset oa < 0) := by omega
    simp [handlerListPackages, ListPackages, memRepo, hcond]
  · intro h; subst h; rfl
  · intro v h hv; subst h; simp only [effectiveLimit]; split_ifs <;> omega
  · intro v h hv; subst h; simp only [effectiveLimit]; split_ifs <;> omega
  · intro v h h1 h2; subst h; simp only [effectiveLimit]; split_ifs <;> omega
  · intro h; subst h; rfl
  · intro v h hv; subst h; simp only [effectiveOffset]; split_ifs <;> omega
  · intro v h hv; subst h; simp only [effectiveOffset]; split_ifs <;> omega
  · exact (sortByCreatedDesc_pairwise (filterStatus s sa)).sublist
      ((List.take_sublist _ _).trans (List.drop_sublist _ _))

/-- C8 witness: a two-record store listed with limit 1 returns exactly
the most recently created record and echoes limit 1 and offset 0. -/
theorem listPackages_normalised_witness :
    handlerListPackages
        [samplePkg 1 PackageStatus.waiting 0, samplePkg 2 PackageStatus.waiting 10]
        (some 1) none none =
      .ok { data := [samplePkg 2 PackageStatus.waiting 10],
            limit := 1, offset := 0, count := 1 } := by
  have h := (listPackages_normalised
    [samplePkg 1 PackageStatus.waiting 0, samplePkg 2 PackageStatus.waiting 10]
    (some 1) none none).1
  exact h.trans (by rfl)

/-- Helper: a successful primary-key lookup returns a member row whose
id is the looked-up id. -/
theorem findByID_mem {s : Store} {id : Nat} {pkg : Package}
    (h : findByID s id = some pkg) : pkg ∈ s ∧ pkg.id = id := by
  unfold findByID at h
  refine ⟨List.mem_of_find?_eq_some h, ?_⟩
  have := List.find?_some h
  simpa using this

/-- Helper: in a well-formed table, looking up the id of a member row
returns that row. -/
theorem findByID_of_mem {s : Store} (hwf : WF s) {pkg : Package} (h : pkg ∈ s) :
    findByID s pkg.id = some pkg := by
  induction s with
  | nil => cases h
  | cons a t ih =>
    rcases List.mem_cons.mp h with rfl | ht
    · simp [findByID]
    · have hne : a.id ≠ pkg.id := (List.pairwise_cons.mp hwf).1 pkg ht
      have htail : findByID t pkg.id = some pkg := ih (List.pairwise_cons.mp hwf).2 ht
      unfold findByID at htail ⊢
      rw [List.find?_cons_of_neg _ (by simpa using hne)]
      exact htail

/-- Helper: in a well-formed table two member rows with the same id are
the same row. -/
theorem mem_id_unique {s : Store} (hwf : WF s) {p q : Package}
    (hp : p ∈ s) (hq : q ∈ s) (h : p.id = q.id) : p = q := by
  have h1 := findByID_of_mem hwf hp
  have h2 := findByID_of_mem hwf hq
  rw [h] at h1
  rw [h1] at h2
  exact Option.some.inj h2

/-- Helper: the state left by a status update over the concrete store:
untouched when the row is absent or the transition rejected, otherwise
the matching row is rewritten with the stamped record (the SQL UPDATE
WHERE id). -/
theorem ucUpdate_state (s : Store) (id : Nat) (ns : PackageStatus) (now : Int) :
    (ucUpdatePackageStatus s id ns now).2 =
      match findByID s id with
      | none => s
      | some pkg =>
        if isValidStatusTransition pkg.status ns then
          s.map (fun p => if p.id = pkg.id then stampPackage pkg ns now else p)
        else s := by
  cases h : findByID s id with
  | none => simp [ucUpdatePackageStatus, UpdatePackageStatus, memRepo, h]
  | some pkg =>
    cases hv : isValidStatusTransition pkg.status ns with
    | false => simp [ucUpdatePackageStatus, UpdatePackageStatus, memRepo, h, hv]
    | true => simp [ucUpdatePackageStatus, UpdatePackageStatus, memRepo, h, hv]

/-- Helper: mapping a row-level function that never changes ids keeps
the table well-formed. -/
theorem wf_map_idpre {s : Store} (hwf : WF s) {f : Package → Package}
    (hf : ∀ p, (f p).id = p.id) : WF (s.map f) := by
  unfold WF at hwf ⊢
  rw [List.pairwise_map]
  exact hwf.imp (by intro a b hab; rw [hf a, hf b]; exact hab)

/-- Helper: the row rewrite of a status update never changes ids. -/
theorem updRow_id (pkg : Package) (ns : PackageStatus) (now : Int) (p : Package) :
    ((fun p => if p.id = pkg.id then stampPackage pkg ns now else p) p).id = p.id := by
  by_cases h : p.id = pkg.id <;> simp [h]

/-- Helper: a primary-key lookup commutes with an id-preserving row
map. -/
theorem findByID_map_idpre {g : Package → Package} (hg : ∀ p, (g p).id = p.id)
    (s : Store) (id : Nat) :
    findByID (s.map g) id = (findByID s id).map g := by
  induction s with
  | nil => rfl
  | cons a t ih =>
    unfold findByID at ih ⊢
    by_cases h : a.id = id
    · rw [List.map_cons, List.find?_cons_of_pos _ (by simpa [hg a] using h),
        List.find?_cons_of_pos _ (by simpa using h)]
      rfl
    · rw [List.map_cons, List.find?_cons_of_neg _ (by simpa [hg a] using h),
        List.find?_cons_of_neg _ (by simpa using h)]
      exact ih

/-- Helper: staleness permits the transition to EXPIRED. -/
theorem staleB_valid {now : Int} {p : Package} (h : staleB now p = true) :
    isValidStatusTransition p.status PackageStatus.expired = true := by
  unfold staleB at h
  rcases Bool.and_eq_true_iff.mp h with ⟨hst, _⟩
  cases hp : p.status <;> rw [hp] at hst <;> simp_all [isValidStatusTransition]

/-- Helper: folding the per-record EXPIRED updates over a duplicate-free
list of rows that are present verbatim in a well-formed table and all
permit the transition rewrites exactly the rows of that list. -/
theorem foldUpdates_stamps (now : Int) :
    ∀ (l : List Package) (s : Store), WF s →
    (∀ pkg ∈ l, findByID s pkg.id = some pkg) →
    (∀ pkg ∈ l, isValidStatusTransition pkg.status PackageStatus.expired = true) →
    (l.map (fun p => p.id)).Nodup →
    l.foldl (fun st pkg => (ucUpdatePackageStatus st pkg.id PackageStatus.expired now).2) s
      = s.map (fun p =>
          if l.any (fun q => q.id = p.id) then stampPackage p PackageStatus.expired now else p)
  | [], s, _, _, _, _ => by simp
  | pkg :: rest, s, hwf, hfind, hval, hnd => by
    have hfpkg : findByID s pkg.id = some pkg := hfind pkg (List.mem_cons_self _ _)
    have hvpkg : isValidStatusTransition pkg.status PackageStatus.expired = true :=
      hval pkg (List.mem_cons_self _ _)
    have hpkgmem : pkg ∈ s := (findByID_mem hfpkg).1
    have hndrest : (rest.map (fun p => p.id)).Nodup := (List.nodup_cons.mp (by simpa using hnd)).2
    have hpkgnotin : pkg.id ∉ rest.map (fun p => p.id) :=
      (List.nodup_cons.mp (by simpa using hnd)).1
    have hstep : (ucUpdatePackageStatus s pkg.id PackageStatus.expired now).2 =
        s.map (fun p => if p.id = pkg.id then stampPackage pkg PackageStatus.expired now else p) := by
      rw [ucUpdate_state, hfpkg]
      simp [hvpkg]
    have hwf1 : WF (s.map (fun p =>
        if p.id = pkg.id then stampPackage pkg PackageStatus.expired now else p)) :=
      wf_map_idpre hwf (updRow_id pkg PackageStatus.expired now)
    have hfind1 : ∀ q ∈ rest,
        findByID (s.map (fun p =>
          if p.id = pkg.id then stampPackage pkg PackageStatus.expired now else p)) q.id = some q := by
      intro q hq
      have hqne : q.id ≠ pkg.id := by
        intro hcontra
        exact hpkgnotin (hcontra ▸ List.mem_map_of_mem (fun p => p.id) hq)
      rw [findByID_map_idpre (updRow_id pkg PackageStatus.expired now),
        hfind q (List.mem_cons_of_mem _ hq)]
      simp [hqne]
    have ih := foldUpdates_stamps now rest
      (s.map (fun p => if p.id = pkg.id then stampPackage pkg PackageStatus.expired now else p))
      hwf1 hfind1 (fun q hq => hval q (List.mem_cons_of_mem _ hq)) hndrest
    rw [List.foldl_cons, hstep, ih, List.map_map]
    refine List.map_congr_left ?_
    intro x hx
    by_cases hxid : x.id = pkg.id
    · have hxeq : x = pkg := mem_id_unique hwf hx hpkgmem hxid
      subst hxeq
      have hnotany : rest.any (fun q => q.id = x.id) = false := by
        rw [List.any_eq_false]
        intro q hq
        simp only [decide_eq_true_eq]
        intro hcontra
        exact hpkgnotin (by simpa [hcontra] using List.mem_map_of_mem (fun p => p.id) hq)
      simp [Function.comp, hxid, hnotany]
    · have hd : (pkg.id = x.id) ↔ False := iff_false_intro (fun h => hxid h.symm)
      simp [Function.comp, List.any_cons, hxid, hd]

/-- C6: over a well-formed store, one sweep at time `now` succeeds and
rewrites exactly the stale rows (status WAITING or PICKED, created
before `now - 24h`) to their EXPIRED stamping, leaving every other row
bit-for-bit unchanged: the scan selects exactly the stale rows and the
EXPIRED update is applied to each of them and to no other. -/
theorem sweepExpired_expires_exactly_stale (s : Store) (now : Int) (hwf : WF s) :
    ucMarkExpiredPackages s now =
      (.ok (), s.map (fun p =>
        if staleB now p then stampPackage p PackageStatus.expired now else p)) := by
  have hscan : (memRepo now).getExpiredPackages s = (.ok (s.filter (staleB now)), s) := rfl
  have hfind : ∀ pkg ∈ s.filter (staleB now), findByID s pkg.id = some pkg := by
    intro pkg hpkg
    exact findByID_of_mem hwf (List.mem_of_mem_filter hpkg)
  have hval : ∀ pkg ∈ s.filter (staleB now),
      isValidStatusTransition pkg.status PackageStatus.expired = true := by
    intro pkg hpkg
    exact staleB_valid (List.of_mem_filter hpkg)
  have hpair : (s.filter (staleB now)).Pairwise (fun p q => p.id ≠ q.id) :=
    hwf.sublist (List.filter_sublist _)
  have hnd : ((s.filter (staleB now)).map (fun p => p.id)).Nodup :=
    hpair.map _ (fun _ _ h => h)
  have hfold := foldUpdates_stamps now (s.filter (staleB now)) s hwf hfind hval hnd
  unfold ucUpdatePackageStatus at hfold
  unfold ucMarkExpiredPackages MarkExpiredPackages
  rw [hscan]
  refine congrArg (Prod.mk _) ?_
  rw [hfold]
  refine List.map_congr_left ?_
  intro x hx
  by_cases hst : staleB now x
  · have hany : (s.filter (staleB now)).any (fun q => q.id = x.id) = true :=
      List.any_eq_true.mpr ⟨x, List.mem_filter.mpr ⟨hx, hst⟩, by simp⟩
    simp [hany, hst]
  · have hany : (s.filter (staleB now)).any (fun q => q.id = x.id) = false := by
      rw [List.any_eq_false]
      intro q hq
      simp only [decide_eq_true_eq]
      intro hiq
      have hqx : q = x := mem_id_unique hwf (List.mem_of_mem_filter hq) hx hiq
      exact hst (hqx ▸ List.of_mem_filter hq)
    simp [hany, hst]

/-- C6 witness: a store with one WAITING record created 25 hours ago and
one PICKED record created 1 hour ago: the sweep at time 0 expires only
the first and leaves the second unchanged. -/
theorem sweepExpired_expires_exactly_stale_witness :
    ucMarkExpiredPackages
        [samplePkg 1 PackageStatus.waiting (-25 * hour),
         samplePkg 2 PackageStatus.picked (-1 * hour)] 0 =
      (.ok (),
        [stampPackage (samplePkg 1 PackageStatus.waiting (-25 * hour)) PackageStatus.expired 0,
         samplePkg 2 PackageStatus.picked (-1 * hour)]) := by
  have h := sweepExpired_expires_exactly_stale
    [samplePkg 1 PackageStatus.waiting (-25 * hour),
     samplePkg 2 PackageStatus.picked (-1 * hour)] 0 (by unfold WF; decide)
  exact h.trans (by rfl)

/-- Helper: zero steps reach the same status. -/
theorem statusReach_refl : ∀ a : PackageStatus, statusReach a a = true := by
  decide

/-- Helper: reachability along the transition graph is transitive. -/
theorem statusReach_trans : ∀ a b c : PackageStatus,
    statusReach a b = true → statusReach b c = true → statusReach a c = true := by
  decide

/-- Helper: one permitted transition is a reachability step. -/
theorem statusReach_of_valid : ∀ a b : PackageStatus,
    isValidStatusTransition a b = true → statusReach a b = true := by
  decide

/-- Helper: no transition leaves a terminal status. -/
theorem terminal_no_transition : ∀ a b : PackageStatus,
    isTerminalStatus a = true → isValidStatusTransition a b = false := by
  decide

/-- Helper: a failed primary-key lookup means no row carries the id. -/
theorem findByID_none {s : Store} {id : Nat} (h : findByID s id = none) :
    ∀ x ∈ s, x.id ≠ id := by
  intro x hx
  unfold findByID at h
  have := List.find?_eq_none.mp h x hx
  simpa using this

/-- Helper: the state left by a create over the concrete store: either
unchanged (duplicate reference found, or the insert rejected by the key
constraints) or the fresh row appended, in which case no existing row
already carried the new id or reference. -/
theorem ucCreate_state (s : Store) (req : CreatePackageRequest) (newId : Nat) (now : Int) :
    (ucCreatePackage s req newId now).2 = s ∨
    ((ucCreatePackage s req newId now).2 = s ++ [mkNewPackage req newId now] ∧
      (∀ x ∈ s, x.id ≠ newId ∧ x.orderRef ≠ req.orderRef)) := by
  unfold ucCreatePackage CreatePackage
  cases h : findByOrderRef s req.orderRef with
  | some pkg =>
    left
    simp [memRepo, h]
  | none =>
    cases ha : s.any (fun p => p.id = newId || p.orderRef = req.orderRef) with
    | true =>
      left
      have ha2 : ∃ x ∈ s, x.id = newId ∨ x.orderRef = req.orderRef := by
        simpa using ha
      simp [memRepo, h, mkNewPackage, ha2]
    | false =>
      right
      have ha2 : ¬∃ x ∈ s, x.id = newId ∨ x.orderRef = req.orderRef := by
        simpa using ha
      have hnone : ∀ x ∈ s, x.id ≠ newId ∧ x.orderRef ≠ req.orderRef := by
        intro x hx
        have := List.any_eq_false.mp ha x hx
        constructor
        · intro hc; exact this (by simp [hc])
        · intro hc; exact this (by simp [hc])
      exact ⟨by simp [memRepo, h, mkNewPackage, ha2], hnone⟩

/-- Helper: the state left by a delete over the concrete store:
unchanged when the row is absent, otherwise the matching row removed. -/
theorem ucDelete_state (s : Store) (id : Nat) :
    (ucDeletePackage s id).2 = s ∨
    (ucDeletePackage s id).2 = s.filter (fun p => p.id ≠ id) := by
  unfold ucDeletePackage DeletePackage
  cases h : findByID s id with
  | none => left; simp [memRepo, h]
  | some pkg => right; simp [memRepo, h]

/-- Helper: the state left by the sweep over the concrete store is the
fold of the per-record EXPIRED updates over the stale rows. -/
theorem ucSweep_state (s : Store) (now : Int) :
    (ucMarkExpiredPackages s now).2 =
      (s.filter (staleB now)).foldl
        (fun st pkg => (ucUpdatePackageStatus st pkg.id PackageStatus.expired now).2) s := rfl

/-- Helper: create keeps the table well-formed (the appended row has a
fresh id). -/
theorem wf_create {s : Store} (hwf : WF s) (req : CreatePackageRequest)
    (newId : Nat) (now : Int) : WF ((ucCreatePackage s req newId now).2) := by
  rcases ucCreate_state s req newId now with h | ⟨h, hfresh⟩
  · rw [h]; exact hwf
  · rw [h]
    unfold WF
    rw [List.pairwise_append]
    refine ⟨hwf, List.pairwise_singleton _ _, ?_⟩
    intro a ha b hb
    have hb1 : b = mkNewPackage req newId now := by simpa using hb
    subst hb1
    simpa [mkNewPackage] using (hfresh a ha).1

/-- Helper: a status update keeps the table well-formed (row ids are
untouched). -/
theorem wf_update {s : Store} (hwf : WF s) (id : Nat) (ns : PackageStatus) (now : Int) :
    WF ((ucUpdatePackageStatus s id ns now).2) := by
  rw [ucUpdate_state]
  cases h : findByID s id with
  | none => exact hwf
  | some pkg =>
    by_cases hv : isValidStatusTransition pkg.status ns = true
    · simp only [hv, if_true]
      exact wf_map_idpre hwf (updRow_id pkg ns now)
    · simp only [hv, if_false]
      exact hwf

/-- Helper: a delete keeps the table well-formed. -/
theorem wf_delete {s : Store} (hwf : WF s) (id : Nat) :
    WF ((ucDeletePackage s id).2) := by
  rcases ucDelete_state s id with h | h <;> rw [h]
  · exact hwf
  · exact hwf.sublist (List.filter_sublist _)

/-- Helper: a status update never loses a row id. -/
theorem update_presence (s : Store) (id : Nat) (ns : PackageStatus) (now : Int)
    {p : Package} (hp : p ∈ s) :
    ∃ p1 ∈ (ucUpdatePackageStatus s id ns now).2, p1.id = p.id := by
  rw [ucUpdate_state]
  cases h : findByID s id with
  | none => exact ⟨p, hp, rfl⟩
  | some pkg =>
    by_cases hv : isValidStatusTransition pkg.status ns = true
    · simp only [hv, if_true]
      exact ⟨_, List.mem_map_of_mem _ hp, updRow_id pkg ns now p⟩
    · simp only [hv, if_false]
      exact ⟨p, hp, rfl⟩

/-- Helper: any row of the state left by a status update whose id
matches a row of the starting table is either that row unchanged or its
stamping through a permitted transition. -/
theorem update_backward {s : Store} (hwf : WF s) {id : Nat} {ns : PackageStatus}
    {now : Int} {p q : Package} (hp : p ∈ s)
    (hq : q ∈ (ucUpdatePackageStatus s id ns now).2) (hid : q.id = p.id) :
    q = p ∨ (q = stampPackage p ns now ∧ isValidStatusTransition p.status ns = true) := by
  rw [ucUpdate_state] at hq
  split at hq
  · exact Or.inl (mem_id_unique hwf hq hp hid)
  · rename_i pkg hfind
    split at hq
    · rename_i hv
      obtain ⟨a, ha, hqa⟩ := List.mem_map.mp hq
      by_cases haid : a.id = pkg.id
      · have hapkg : a = pkg := mem_id_unique hwf ha (findByID_mem hfind).1 haid
        rw [hapkg, if_pos rfl] at hqa
        have hqid : pkg.id = p.id := by
          rw [← hid, ← hqa]
          exact (stampPackage_id pkg ns now).symm
        have hpkg_p : pkg = p := mem_id_unique hwf (findByID_mem hfind).1 hp hqid
        rw [hpkg_p] at hqa hv
        exact Or.inr ⟨hqa.symm, hv⟩
      · rw [if_neg haid] at hqa
        subst hqa
        exact Or.inl (mem_id_unique hwf ha hp hid)
    · exact Or.inl (mem_id_unique hwf hq hp hid)

/-- Helper: any row id present after a status update was present
before. -/
theorem update_mem_ids {s : Store} {id : Nat} {ns : PackageStatus} {now : Int}
    {q : Package} (hq : q ∈ (ucUpdatePackageStatus s id ns now).2) :
    ∃ x ∈ s, x.id = q.id := by
  rw [ucUpdate_state] at hq
  split at hq
  · exact ⟨q, hq, rfl⟩
  · rename_i pkg hfind
    split at hq
    · obtain ⟨a, ha, hqa⟩ := List.mem_map.mp hq
      exact ⟨a, ha, by rw [← hqa]; exact (updRow_id pkg ns now a).symm⟩
    · exact ⟨q, hq, rfl⟩

/-- Helper: the sweep fold keeps the table well-formed. -/
theorem wf_foldUpd (now : Int) :
    ∀ (l : List Package) (s : Store), WF s →
    WF (l.foldl (fun st pkg =>
      (ucUpdatePackageStatus st pkg.id PackageStatus.expired now).2) s)
  | [], _, hwf => hwf
  | _ :: rest, s, hwf => wf_foldUpd now rest _ (wf_update hwf _ _ _)

/-- Helper: any row id present after the sweep fold was present
before. -/
theorem foldUpd_mem_ids (now : Int) :
    ∀ (l : List Package) (s : Store) {q : Package},
    q ∈ l.foldl (fun st pkg =>
      (ucUpdatePackageStatus st pkg.id PackageStatus.expired now).2) s →
    ∃ x ∈ s, x.id = q.id
  | [], _, q, hq => ⟨q, hq, rfl⟩
  | _ :: rest, s, q, hq => by
    obtain ⟨x1, hx1, hid1⟩ := foldUpd_mem_ids now rest _ hq
    obtain ⟨x, hx, hid⟩ := update_mem_ids hx1
    exact ⟨x, hx, hid.trans hid1⟩

/-- Helper: across the sweep fold, a row with a given id only moves
forward along the graph, and not at all from a terminal status. -/
theorem foldUpd_backward (now : Int) (l : List Package) :
    ∀ (s : Store), WF s → ∀ {p q : Package}, p ∈ s →
    q ∈ l.foldl (fun st pkg =>
      (ucUpdatePackageStatus st pkg.id PackageStatus.expired now).2) s →
    q.id = p.id →
    statusReach p.status q.status = true ∧
      (isTerminalStatus p.status = true → q = p) := by
  induction l with
  | nil =>
    intro s hwf p q hp hq hid
    have hqp : q = p := mem_id_unique hwf hq hp hid
    exact ⟨by rw [hqp]; exact statusReach_refl _, fun _ => hqp⟩
  | cons pkg rest ih =>
    intro s hwf p q hp hq hid
    simp only [List.foldl_cons] at hq
    have hwf1 : WF (ucUpdatePackageStatus s pkg.id PackageStatus.expired now).2 :=
      wf_update hwf _ _ _
    obtain ⟨p1, hp1, hid1⟩ := update_presence s pkg.id PackageStatus.expired now hp
    have hstep := update_backward hwf hp hp1 hid1
    have hreach1 : statusReach p.status p1.status = true := by
      rcases hstep with h | ⟨h, hv⟩
      · rw [h]; exact statusReach_refl _
      · rw [h, stampPackage_status]; exact statusReach_of_valid _ _ hv
    have hterm1 : isTerminalStatus p.status = true → p1 = p := by
      intro ht
      rcases hstep with h | ⟨h, hv⟩
      · exact h
      · rw [terminal_no_transition _ _ ht] at hv; simp at hv
    have hrest := ih _ hwf1 hp1 hq (hid.trans hid1.symm)
    constructor
    · exact statusReach_trans _ _ _ hreach1 hrest.1
    · intro ht
      have hp1p := hterm1 ht
      have hqp1 : q = p1 := hrest.2 (by rw [hp1p]; exact ht)
      rw [hqp1, hp1p]

/-- Helper: a create never touches an existing row: any row of the new
state carrying the id of an old row is that old row. -/
theorem create_backward {s : Store} (hwf : WF s) {req : CreatePackageRequest}
    {newId : Nat} {now : Int} {p q : Package} (hp : p ∈ s)
    (hq : q ∈ (ucCreatePackage s req newId now).2) (hid : q.id = p.id) :
    q = p := by
  rcases ucCreate_state s req newId now with h | ⟨h, hfresh⟩
  · rw [h] at hq
    exact mem_id_unique hwf hq hp hid
  · rw [h] at hq
    rcases List.mem_append.mp hq with hq1 | hq2
    · exact mem_id_unique hwf hq1 hp hid
    · have hq3 : q = mkNewPackage req newId now := by simpa using hq2
      exact absurd (by rw [← hid, hq3]; rfl) (hfresh p hp).1

/-- Helper: a delete only removes rows. -/
theorem delete_subset {s : Store} {id : Nat} {q : Package}
    (hq : q ∈ (ucDeletePackage s id).2) : q ∈ s := by
  rcases ucDelete_state s id with h | h <;> rw [h] at hq
  · exact hq
  · exact List.mem_of_mem_filter hq

/-- Helper: every service operation keeps the table well-formed. -/
theorem wf_applyOp {s : Store} (hwf : WF s) (op : Op) : WF (applyOp s op) := by
  cases op with
  | create req newId now => exact wf_create hwf req newId now
  | updateStatus id ns now => exact wf_update hwf id ns now
  | delete id => exact wf_delete hwf id
  | sweep now =>
    show WF (ucMarkExpiredPackages s now).2
    rw [ucSweep_state]
    exact wf_foldUpd now _ s hwf

/-- Helper: any row id present after one service operation was either
present before or is the uuid of that very create operation. -/
theorem applyOp_mem_ids {s : Store} {op : Op} {q : Package} (hq : q ∈ applyOp s op) :
    (∃ x ∈ s, x.id = q.id) ∨
    (∃ req newId now, op = Op.create req newId now ∧ q.id = newId) := by
  cases op with
  | create req newId now =>
    have hq1 : q ∈ (ucCreatePackage s req newId now).2 := hq
    rcases ucCreate_state s req newId now with h | ⟨h, _⟩ <;> rw [h] at hq1
    · exact Or.inl ⟨q, hq1, rfl⟩
    · rcases List.mem_append.mp hq1 with hq2 | hq2
      · exact Or.inl ⟨q, hq2, rfl⟩
      · have hq3 : q = mkNewPackage req newId now := by simpa using hq2
        exact Or.inr ⟨req, newId, now, rfl, by rw [hq3]; rfl⟩
  | updateStatus id ns now => exact Or.inl (update_mem_ids hq)
  | delete id => exact Or.inl ⟨q, delete_subset hq, rfl⟩
  | sweep now =>
    have hq1 : q ∈ (ucMarkExpiredPackages s now).2 := hq
    rw [ucSweep_state] at hq1
    exact Or.inl (foldUpd_mem_ids now _ s hq1)

/-- Helper: across one service operation, a row with a given id only
moves forward along the graph, and not at all from a terminal status. -/
theorem applyOp_backward {s : Store} (hwf : WF s) {op : Op} {p q : Package}
    (hp : p ∈ s) (hq : q ∈ applyOp s op) (hid : q.id = p.id) :
    statusReach p.status q.status = true ∧
      (isTerminalStatus p.status = true → q = p) := by
  cases op with
  | create req newId now =>
    have hqp : q = p := create_backward hwf hp hq hid
    exact ⟨by rw [hqp]; exact statusReach_refl _, fun _ => hqp⟩
  | updateStatus id ns now =>
    have hstep := update_backward hwf hp hq hid
    constructor
    · rcases hstep with h | ⟨h, hv⟩
      · rw [h]; exact statusReach_refl _
      · rw [h, stampPackage_status]; exact statusReach_of_valid _ _ hv
    · intro ht
      rcases hstep with h | ⟨h, hv⟩
      · exact h
      · rw [terminal_no_transition _ _ ht] at hv; simp at hv
  | delete id =>
    have hqp : q = p := mem_id_unique hwf (delete_subset hq) hp hid
    exact ⟨by rw [hqp]; exact statusReach_refl _, fun _ => hqp⟩
  | sweep now =>
    have hq1 : q ∈ (ucMarkExpiredPackages s now).2 := hq
    rw [ucSweep_state] at hq1
    exact foldUpd_backward now _ s hwf hp hq1 hid

/-- Helper: an id absent from the table stays absent under any
operations none of whose creates draws it. -/
theorem absent_stays : ∀ (ops : List Op) (s : Store) (idv : Nat),
    (∀ x ∈ s, x.id ≠ idv) →
    (∀ req newId now, Op.create req newId now ∈ ops → newId ≠ idv) →
    ∀ q ∈ ops.foldl applyOp s, q.id ≠ idv
  | [], _, _, habs, _, q, hq => habs q hq
  | op :: rest, s, idv, habs, hcr, q, hq => by
    simp only [List.foldl_cons] at hq
    refine absent_stays rest (applyOp s op) idv ?_
      (fun req newId now h => hcr req newId now (List.mem_cons_of_mem _ h)) q hq
    intro x hx hxid
    rcases applyOp_mem_ids hx with ⟨y, hy, hyid⟩ | ⟨req, newId, now, hop, hxn⟩
    · exact habs y hy (hyid.trans hxid)
    · exact hcr req newId now (by rw [hop]; exact List.mem_cons_self _ _)
        (by rw [← hxn, hxid])

/-- Helper: across any list of service operations, a row with a given
id only moves forward along the graph, and not at all from a terminal
status, provided no create of the list draws that id. -/
theorem steps_backward (ops : List Op) :
    ∀ (s : Store), WF s → ∀ {p : Package}, p ∈ s →
    (∀ req newId now, Op.create req newId now ∈ ops → newId ≠ p.id) →
    ∀ {q : Package}, q ∈ ops.foldl applyOp s → q.id = p.id →
    statusReach p.status q.status = true ∧
      (isTerminalStatus p.status = true → q = p) := by
  induction ops with
  | nil =>
    intro s hwf p hp _ q hq hid
    have hqp := mem_id_unique hwf hq hp hid
    exact ⟨by rw [hqp]; exact statusReach_refl _, fun _ => hqp⟩
  | cons op rest ih =>
    intro s hwf p hp hcr q hq hid
    simp only [List.foldl_cons] at hq
    have hwf1 : WF (applyOp s op) := wf_applyOp hwf op
    cases hfnd : findByID (applyOp s op) p.id with
    | some p1 =>
      obtain ⟨hp1mem, hp1id⟩ := findByID_mem hfnd
      have hstep := applyOp_backward hwf hp hp1mem hp1id
      have hcr1 : ∀ req newId now, Op.create req newId now ∈ rest → newId ≠ p1.id := by
        intro req newId now h
        rw [hp1id]
        exact hcr req newId now (List.mem_cons_of_mem _ h)
      have hrest := ih (applyOp s op) hwf1 hp1mem hcr1 hq (hid.trans hp1id.symm)
      constructor
      · exact statusReach_trans _ _ _ hstep.1 hrest.1
      · intro ht
        have hp1p := hstep.2 ht
        have hqp1 := hrest.2 (by rw [hp1p]; exact ht)
        rw [hqp1, hp1p]
    | none =>
      have habs := findByID_none hfnd
      have hne : q.id ≠ p.id := absent_stays rest (applyOp s op) p.id habs
        (fun req newId now h => hcr req newId now (List.mem_cons_of_mem _ h)) q hq
      exact absurd hid hne

/-- Helper: any list of service operations keeps the table
well-formed. -/
theorem wf_foldOps : ∀ (ops : List Op) (s : Store), WF s → WF (ops.foldl applyOp s)
  | [], _, hwf => hwf
  | op :: rest, s, hwf => wf_foldOps rest _ (wf_applyOp hwf op)

/-- Helper: every store reachable from the empty store is
well-formed. -/
theorem wf_runOps (ops : List Op) : WF (runOps ops) :=
  wf_foldOps ops [] List.Pairwise.nil

/-- Helper: the create uuids of a concatenated trace. -/
theorem createIds_append : ∀ (l1 l2 : List Op),
    createIds (l1 ++ l2) = createIds l1 ++ createIds l2
  | [], _ => rfl
  | op :: rest, l2 => by
    cases op <;> simp [createIds, createIds_append rest l2]

/-- Helper: the uuid of a create of a trace is among its create
uuids. -/
theorem mem_createIds : ∀ {ops : List Op} {req : CreatePackageRequest}
    {newId : Nat} {now : Int}, Op.create req newId now ∈ ops → newId ∈ createIds ops := by
  intro ops
  induction ops with
  | nil => intro req newId now h; cases h
  | cons op rest ih =>
    intro req newId now h
    rcases List.mem_cons.mp h with h1 | h2
    · rw [← h1]
      exact List.mem_cons_self _ _
    · cases op with
      | create r n t => exact List.mem_cons_of_mem _ (ih h2)
      | updateStatus a b c => exact ih h2
      | delete a => exact ih h2
      | sweep a => exact ih h2

/-- Helper: every row id of a state built by a trace comes from the
starting state or from one of the creates of the trace. -/
theorem foldOps_id_origin : ∀ (ops : List Op) (s : Store) {q : Package},
    q ∈ ops.foldl applyOp s → (∃ x ∈ s, x.id = q.id) ∨ q.id ∈ createIds ops
  | [], _, q, hq => Or.inl ⟨q, hq, rfl⟩
  | op :: rest, s, q, hq => by
    simp only [List.foldl_cons] at hq
    rcases foldOps_id_origin rest (applyOp s op) hq with ⟨x1, hx1, hid1⟩ | hcid
    · rcases applyOp_mem_ids hx1 with ⟨x, hx, hid⟩ | ⟨req, newId, now, hop, hxn⟩
      · exact Or.inl ⟨x, hx, hid.trans hid1⟩
      · right
        rw [hop]
        rw [← hid1, hxn]
        exact List.mem_cons_self _ _
    · right
      cases op with
      | create r n t => exact List.mem_cons_of_mem _ hcid
      | updateStatus a b c => exact hcid
      | delete a => exact hcid
      | sweep a => exact hcid

/-- C4: along any trace of service operations from the empty store in
which the create operations draw pairwise distinct uuids (as
`uuid.New()` does), a package present at one point and carrying the
same id at any later point has only moved forward along the §4.2
transition graph; and if it had already reached a terminal status
(HANDED_OVER or EXPIRED), the later record is bit-for-bit the same:
no later updateStatus or sweep (or any other operation) modifies it. -/
theorem package_status_monotonic (ops1 ops2 : List Op) (p q : Package)
    (hnd : (createIds (ops1 ++ ops2)).Nodup)
    (hp : p ∈ runOps ops1) (hq : q ∈ runOps (ops1 ++ ops2)) (hid : q.id = p.id) :
    statusReach p.status q.status = true ∧
      (isTerminalStatus p.status = true → q = p) := by
  have hwf : WF (runOps ops1) := wf_runOps ops1
  have hq2 : q ∈ ops2.foldl applyOp (runOps ops1) := by
    rw [runOps, List.foldl_append] at hq
    exact hq
  have hpid : p.id ∈ createIds ops1 := by
    rcases foldOps_id_origin ops1 [] hp with ⟨x, hx, _⟩ | h
    · exact absurd hx (List.not_mem_nil x)
    · exact h
  have hcr : ∀ req newId now, Op.create req newId now ∈ ops2 → newId ≠ p.id := by
    intro req newId now h hc
    rw [createIds_append] at hnd
    rcases List.nodup_append.mp hnd with ⟨_, _, hdisj⟩
    exact hdisj hpid (by rw [← hc]; exact mem_createIds h)
  exact steps_backward ops2 (runOps ops1) hwf hp hcr hq2 hid

/-- C4 witness: create then pick up: the status moves forward
(WAITING reaches PICKED) and the terminal clause is vacuous for
WAITING. -/
theorem package_status_monotonic_witness :
    statusReach PackageStatus.waiting PackageStatus.picked = true ∧
    (isTerminalStatus PackageStatus.waiting = true →
      stampPackage (mkNewPackage { orderRef := "ORD-1", driverCode := "DRV-1" } 1 0)
          PackageStatus.picked 5 =
        mkNewPackage { orderRef := "ORD-1", driverCode := "DRV-1" } 1 0) := by
  have h := package_status_monotonic
    [Op.create { orderRef := "ORD-1", driverCode := "DRV-1" } 1 0]
    [Op.updateStatus 1 PackageStatus.picked 5]
    (mkNewPackage { orderRef := "ORD-1", driverCode := "DRV-1" } 1 0)
    (stampPackage (mkNewPackage { orderRef := "ORD-1", driverCode := "DRV-1" } 1 0)
      PackageStatus.picked 5)
    (by decide) (by decide) (by decide) (by decide)
  exact h
